import Mathlib

/-!
Verification development for the polar-plant EC dashboard (src/main.py).

The pipeline core of the program is shallowly embedded below:
tabular files are lists of typed rows, pandas DataFrames keyed by school are
association lists in insertion order (Python dict order), and the Streamlit
script after the load phase is a pure function from the two loaded mappings
to a run outcome.  Python exceptions (KeyError, IndexError) are modelled with
`Except`; `st.stop()` is the `stopped` outcome.  The external library
function `unicodedata.normalize("NFC", _)` is abstracted as a parameter
`nfc : String → String` of the resolver and the loader.
-/

set_option autoImplicit false

/-- One parsed row of an environmental CSV before the `school` column is
added (`pd.read_csv` output, columns time, temperature, humidity, ph, ec). -/
structure EnvRowRaw where
  time : String
  temperature : ℚ
  humidity : ℚ
  ph : ℚ
  ec : ℚ
deriving DecidableEq

/-- An environmental row after `df["school"] = ...` tagging. -/
structure EnvRow where
  time : String
  temperature : ℚ
  humidity : ℚ
  ph : ℚ
  ec : ℚ
  school : String
deriving DecidableEq

/-- One growth-measurement row after sheet tagging: columns
생중량(g) = freshWeight, 잎 수(장) = leafCount, 지상부 길이(mm) = shootLength,
plus the `school` tag column. -/
structure GrowthRow where
  freshWeight : ℚ
  leafCount : ℚ
  shootLength : ℚ
  school : String
deriving DecidableEq

/-- `env_data`: Python dict school ↦ DataFrame, in insertion order. -/
abbrev EnvData := List (String × List EnvRow)

/-- `growth_data`: Python dict school ↦ DataFrame, in insertion order. -/
abbrev GrowthData := List (String × List GrowthRow)

/-- Python `d[k]`-style association-list lookup (first binding wins, as in a
dict, whose keys are unique). -/
def dictLookup {V : Type} : List (String × V) → String → Option V
  | [], _ => none
  | p :: rest, k => if p.1 = k then some p.2 else dictLookup rest k

/-- Python `d[k] = v`: overwrite in place if the key exists, else append. -/
def dictInsert {V : Type} (d : List (String × V)) (k : String) (v : V) :
    List (String × V) :=
  if (dictLookup d k).isSome then
    d.map (fun p => if p.1 = k then (k, v) else p)
  else
    d ++ [(k, v)]

/-- `normalize_name` from src/main.py; `nfc` stands for
`unicodedata.normalize("NFC", _)`. -/
def normalize_name (nfc : String → String) (name : String) : String :=
  nfc name

/-- `find_file_safe` from src/main.py: the directory listing is the list of
entry names in enumeration order; return the first entry whose NFC form
equals the NFC form of the target, else `none`. -/
def find_file_safe (nfc : String → String) :
    List String → String → Option String
  | [], _ => none
  | file :: rest, targetName =>
    if normalize_name nfc file = normalize_name nfc targetName then some file
    else find_file_safe nfc rest targetName

/-- The data directory as seen by the loader: entry names in enumeration
order, plus the parsed content `pd.read_csv` would produce for each entry. -/
structure FS where
  entries : List String
  csvContent : String → List EnvRowRaw

/-- The four fixed environmental CSV targets (`csv_targets` in src/main.py). -/
def csv_targets : List String :=
  ["송도고_환경데이터.csv", "하늘고_환경데이터.csv", "아라고_환경데이터.csv", "동산고_환경데이터.csv"]

/-- Characters of a string before the first underscore:
Python `name.split("_")[0]`. -/
def takeUntilUnderscore : List Char → List Char
  | [] => []
  | c :: cs => if c = '_' then [] else c :: takeUntilUnderscore cs

/-- `name.split("_")[0]` from the loader, used to derive the school tag. -/
def schoolFromName (name : String) : String :=
  String.mk (takeUntilUnderscore name.toList)

/-- `df["school"] = s` on a freshly parsed environmental DataFrame. -/
def tagEnv (s : String) (t : List EnvRowRaw) : List EnvRow :=
  t.map (fun r => ⟨r.time, r.temperature, r.humidity, r.ph, r.ec, s⟩)

/-- The warning text of `st.error` for a missing environmental file. -/
def errMsgEnv (name : String) : String :=
  "환경 데이터 파일을 찾을 수 없습니다: " ++ name

/-- The Python exception that can escape `load_environment_data`:
`df["school"].iloc[0]` raises IndexError on a zero-row DataFrame. -/
inductive LoadError where
  | indexError (target : String)
deriving DecidableEq

/-- One iteration of the loop in `load_environment_data`, threading the
emitted warnings and the `env_data` dict; a raised exception aborts the
whole call (`Except.error`). -/
def envStep (nfc : String → String) (fs : FS)
    (acc : Except LoadError (List String × EnvData)) (name : String) :
    Except LoadError (List String × EnvData) :=
  match acc with
  | .error e => .error e
  | .ok (warns, env) =>
    match find_file_safe nfc fs.entries name with
    | none => .ok (warns ++ [errMsgEnv name], env)
    | some filePath =>
      let tagged := tagEnv (schoolFromName name) (fs.csvContent filePath)
      match tagged.head? with
      | none => .error (.indexError name)
      | some r0 => .ok (warns, dictInsert env r0.school tagged)

/-- `load_environment_data` from src/main.py, returning the emitted warnings
together with the `env_data` mapping, or the escaped exception. -/
def load_environment_data (nfc : String → String) (fs : FS) :
    Except LoadError (List String × EnvData) :=
  csv_targets.foldl (envStep nfc fs) (.ok ([], []))

/-- The static experiment-design table `EC_MAP` (school ↦ target EC). -/
def EC_MAP : List (String × ℚ) :=
  [("송도고", 1), ("하늘고", 2), ("아라고", 4), ("동산고", 8)]

/-- The static display-color table `COLOR_MAP`. -/
def COLOR_MAP : List (String × String) :=
  [("송도고", "#1f77b4"), ("하늘고", "#2ca02c"), ("아라고", "#ff7f0e"), ("동산고", "#d62728")]

/-- `selected_schools` from src/main.py: all loaded keys when the sidebar
option is "전체", otherwise exactly the chosen school name. -/
def selected_schools (env : EnvData) (schoolOption : String) : List String :=
  if schoolOption = "전체" then env.map Prod.fst else [schoolOption]

/-- Arithmetic mean of a numeric column, `Series.mean()`. -/
def listMean (l : List ℚ) : ℚ :=
  l.sum / (l.length : ℚ)

/-- One row of the experiment-overview table built in Tab 1:
[school, EC_MAP.get(school), len(df), COLOR_MAP.get(school)]; the two
`dict.get` lookups default to None, hence `Option`. -/
structure OverviewRow where
  school : String
  ec : Option ℚ
  count : ℕ
  color : Option String
deriving DecidableEq

/-- The overview row the Tab 1 loop appends for one `growth_data` entry. -/
def overviewRowOf (p : String × List GrowthRow) : OverviewRow :=
  ⟨p.1, dictLookup EC_MAP p.1, p.2.length, dictLookup COLOR_MAP p.1⟩

/-- The Tab 1 loop over `growth_data.items()`: accumulates `overview_rows`
and `total_plants` together, in dict iteration order. -/
def overviewPass (g : GrowthData) : List OverviewRow × ℕ :=
  g.foldl (fun acc p => (acc.1 ++ [overviewRowOf p], acc.2 + p.2.length)) ([], 0)

/-- `weight_means`: dict comprehension school ↦ mean of 생중량(g),
preserving `growth_data` iteration order. -/
def weight_means (g : GrowthData) : List (String × ℚ) :=
  g.map (fun p => (p.1, listMean (p.2.map GrowthRow.freshWeight)))

/-- Loop of Python `max(..., key=...)`: keep the current best, replace it
only when a later value is strictly greater (so the first maximal key
in iteration order wins). -/
def maxByValueAux (bk : String) (bv : ℚ) : List (String × ℚ) → String
  | [] => bk
  | (k, v) :: rest => if bv < v then maxByValueAux k v rest else maxByValueAux bk bv rest

/-- Python `max(d, key=d.get)` over an insertion-ordered mapping;
`none` models the ValueError on an empty mapping. -/
def maxByValue : List (String × ℚ) → Option String
  | [] => none
  | (k, v) :: rest => some (maxByValueAux k v rest)

/-- `optimal_school = max(weight_means, key=weight_means.get)`. -/
def optimal_school (g : GrowthData) : Option String :=
  maxByValue (weight_means g)

/-- One row of the Tab 2 environment-averages table
[school, mean temperature, mean humidity, mean ph, mean ec, EC_MAP[school]]. -/
structure AvgRow where
  school : String
  temperature : ℚ
  humidity : ℚ
  ph : ℚ
  ec : ℚ
  targetEc : ℚ
deriving DecidableEq

/-- One iteration of the Tab 2 `avg_rows` loop; `env_data[school]` and
`EC_MAP[school]` are Python `[]`-indexing, so an absent key raises KeyError,
modelled as `Except.error` carrying the missing key. -/
def avgStep (env : EnvData) (acc : Except String (List AvgRow)) (school : String) :
    Except String (List AvgRow) :=
  match acc with
  | .error e => .error e
  | .ok rows =>
    match dictLookup env school with
    | none => .error school
    | some df =>
      match dictLookup EC_MAP school with
      | none => .error school
      | some tec =>
        .ok (rows ++ [⟨school,
          listMean (df.map EnvRow.temperature),
          listMean (df.map EnvRow.humidity),
          listMean (df.map EnvRow.ph),
          listMean (df.map EnvRow.ec), tec⟩])

/-- The Tab 2 `avg_rows` loop over the selected schools. -/
def avg_rows (env : EnvData) (selected : List String) :
    Except String (List AvgRow) :=
  selected.foldl (avgStep env) (.ok [])

/-- One iteration of the Tab 3 `ec_weight` loop:
[school, EC_MAP[school], mean 생중량(g)]; `EC_MAP[school]` raises KeyError
on an absent key. -/
def ecStep (acc : Except String (List (String × ℚ × ℚ)))
    (p : String × List GrowthRow) : Except String (List (String × ℚ × ℚ)) :=
  match acc with
  | .error e => .error e
  | .ok rows =>
    match dictLookup EC_MAP p.1 with
    | none => .error p.1
    | some ec => .ok (rows ++ [(p.1, ec, listMean (p.2.map GrowthRow.freshWeight))])

/-- The Tab 3 `ec_weight` loop over `growth_data.items()`. -/
def ec_weight (g : GrowthData) : Except String (List (String × ℚ × ℚ)) :=
  g.foldl ecStep (.ok [])

/-- `pd.concat(mapping.values())`: the tables of the mapping, in dict
iteration order, flattened into one table. -/
def concatTables {α : Type} (m : List (String × List α)) : List α :=
  (m.map Prod.snd).flatten

/-- `full_env = pd.concat(env_data.values())` (Tab 2 export expander). -/
def full_env (env : EnvData) : List EnvRow :=
  concatTables env

/-- `all_growth = pd.concat(growth_data.values())` (Tab 3). -/
def all_growth (g : GrowthData) : List GrowthRow :=
  concatTables g

/-- Every data-bearing value the script computes after the emptiness guard
(chart/widget rendering itself is presentation and out of scope). -/
structure DashboardOutput where
  overview : List OverviewRow
  totalPlants : ℕ
  avgTemp : ℚ
  avgHum : ℚ
  optimalSchool : String
  optimalEc : ℚ
  avgTable : List AvgRow
  fullEnv : List EnvRow
  ecWeight : List (String × ℚ × ℚ)
  allGrowth : List GrowthRow
deriving DecidableEq

/-- Outcome of one run of the script body after loading: `st.stop()`,
an uncaught Python exception, or a fully rendered page. -/
inductive RunOutcome where
  | stopped
  | crashed (key : String)
  | page (out : DashboardOutput)
deriving DecidableEq

/-- The script body of src/main.py after the two load calls: the
`if not env_data or not growth_data: st.stop()` guard, then the Tab 1,
Tab 2 and Tab 3 computations in program order, propagating any uncaught
exception. -/
def runDashboard (env : EnvData) (growth : GrowthData) (schoolOption : String) :
    RunOutcome :=
  if env.isEmpty || growth.isEmpty then .stopped
  else
    let ov := overviewPass growth
    let avgTemp := listMean ((full_env env).map EnvRow.temperature)
    let avgHum := listMean ((full_env env).map EnvRow.humidity)
    match optimal_school growth with
    | none => .crashed "max() arg is an empty sequence"
    | some opt =>
      match dictLookup EC_MAP opt with
      | none => .crashed opt
      | some optEc =>
        match avg_rows env (selected_schools env schoolOption) with
        | .error k => .crashed k
        | .ok avgs =>
          match ec_weight growth with
          | .error k => .crashed k
          | .ok ecw =>
            .page ⟨ov.1, ov.2, avgTemp, avgHum, opt, optEc, avgs,
              full_env env, ecw, all_growth growth⟩

/-- The process state the Aggregator reads: the two cached raw mappings. -/
abbrev St := EnvData × GrowthData

/-- Reading the cached `env_data` mapping, with the state threaded
explicitly so that its (non-)mutation is visible. -/
def readEnvData (s : St) : St × EnvData := (s, s.1)

/-- Reading the cached `growth_data` mapping, state threaded explicitly. -/
def readGrowthData (s : St) : St × GrowthData := (s, s.2)

/-- The overview aggregation as a state-passing operation. -/
def overviewOp (s : St) : St × (List OverviewRow × ℕ) :=
  let r := readGrowthData s
  (r.1, overviewPass r.2)

/-- The environment-averages aggregation as a state-passing operation. -/
def envAveragesOp (sel : List String) (s : St) :
    St × Except String (List AvgRow) :=
  let r := readEnvData s
  (r.1, avg_rows r.2 sel)

/-- The weight-by-source aggregation as a state-passing operation. -/
def weightBySourceOp (s : St) : St × Except String (List (String × ℚ × ℚ)) :=
  let r := readGrowthData s
  (r.1, ec_weight r.2)

/-- Concatenation of the environmental tables as a state-passing operation. -/
def concatEnvOp (s : St) : St × List EnvRow :=
  let r := readEnvData s
  (r.1, full_env r.2)

/-- Concatenation of the growth tables as a state-passing operation. -/
def concatGrowthOp (s : St) : St × List GrowthRow :=
  let r := readGrowthData s
  (r.1, all_growth r.2)

theorem dictLookup_eq_none {V : Type} {d : List (String × V)} {k : String}
    (h : k ∉ d.map Prod.fst) : dictLookup d k = none := by
  induction d with
  | nil => rfl
  | cons p rest ih =>
    simp only [List.map_cons, List.mem_cons, not_or] at h
    simp only [dictLookup]
    rw [if_neg (fun he => h.1 he.symm)]
    exact ih h.2

theorem dictInsert_of_not_mem {V : Type} {d : List (String × V)} {k : String}
    (v : V) (h : k ∉ d.map Prod.fst) : dictInsert d k v = d ++ [(k, v)] := by
  simp [dictInsert, dictLookup_eq_none h]

theorem overviewPass_foldl_eq (g : GrowthData) :
    ∀ (rows : List OverviewRow) (n : ℕ),
      g.foldl (fun acc p => (acc.1 ++ [overviewRowOf p], acc.2 + p.2.length)) (rows, n)
        = (rows ++ g.map overviewRowOf, n + (g.map (fun p => p.2.length)).sum) := by
  induction g with
  | nil => intro rows n; simp
  | cons p rest ih =>
    intro rows n
    simp [List.foldl_cons, ih, List.append_assoc, Nat.add_assoc]

theorem overviewPass_eq (g : GrowthData) :
    overviewPass g = (g.map overviewRowOf, (g.map (fun p => p.2.length)).sum) := by
  simpa using overviewPass_foldl_eq g [] 0

/-- Claim C1: `find_file_safe` depends on the target filename only through
its NFC normal form, so byte-different but NFC-equal targets resolve to the
same result; and whenever some directory entry NFC-matches the target,
resolution succeeds with the first NFC-matching entry in enumeration
order. -/
theorem find_file_safe_nfc_equiv (nfc : String → String) :
    (∀ (dir : List String) (t1 t2 : String),
        normalize_name nfc t1 = normalize_name nfc t2 →
        find_file_safe nfc dir t1 = find_file_safe nfc dir t2)
    ∧ (∀ (dir : List String) (t e : String), e ∈ dir →
        normalize_name nfc e = normalize_name nfc t →
        ∃ pre hit post, dir = pre ++ hit :: post
          ∧ find_file_safe nfc dir t = some hit
          ∧ normalize_name nfc hit = normalize_name nfc t
          ∧ ∀ x ∈ pre, normalize_name nfc x ≠ normalize_name nfc t) := by
  constructor
  · intro dir t1 t2 h
    induction dir with
    | nil => rfl
    | cons d rest ih =>
      simp only [normalize_name] at h
      simp only [find_file_safe, normalize_name]
      simp only [h, ih]
  · intro dir t e hmem heq
    induction dir with
    | nil => cases hmem
    | cons d rest ih =>
      by_cases hd : normalize_name nfc d = normalize_name nfc t
      · refine ⟨[], d, rest, rfl, ?_, hd, by simp⟩
        simp only [find_file_safe]
        rw [if_pos hd]
      · have hmem' : e ∈ rest := by
          rcases List.mem_cons.mp hmem with rfl | hmem'
          · exact absurd heq hd
          · exact hmem'
        obtain ⟨pre, hit, post, hsplit, hfind, hhit, hpre⟩ := ih hmem'
        refine ⟨d :: pre, hit, post, by rw [hsplit]; rfl, ?_, hhit, ?_⟩
        · simp only [find_file_safe]
          rw [if_neg hd]
          exact hfind
        · intro x hx
          rcases List.mem_cons.mp hx with rfl | hx
          · exact hd
          · exact hpre x hx

/-- A toy normalization map used to instantiate the resolver theorem:
"b" stands for a decomposed spelling whose NFC form is "a". -/
def nfc0 (s : String) : String := if s = "b" then "a" else s

theorem find_file_safe_nfc_equiv_witness :
    normalize_name nfc0 "a" = normalize_name nfc0 "b"
    ∧ find_file_safe nfc0 ["x", "a"] "a" = find_file_safe nfc0 ["x", "a"] "b"
    ∧ ("a" ∈ (["x", "a"] : List String))
    ∧ (∃ pre hit post, (["x", "a"] : List String) = pre ++ hit :: post
        ∧ find_file_safe nfc0 ["x", "a"] "b" = some hit
        ∧ normalize_name nfc0 hit = normalize_name nfc0 "b"
        ∧ ∀ x ∈ pre, normalize_name nfc0 x ≠ normalize_name nfc0 "b") :=
  ⟨by decide, (find_file_safe_nfc_equiv nfc0).1 ["x", "a"] "a" "b" (by decide),
    by decide,
    (find_file_safe_nfc_equiv nfc0).2 ["x", "a"] "b" "a" (by decide) (by decide)⟩

/-- Claim C3: if after the two load operations either mapping is empty, the
script body stops at `st.stop()`: no overview, averages, weight-by-source,
concatenation or rendering is produced. -/
theorem empty_dataset_stops (env : EnvData) (growth : GrowthData)
    (schoolOption : String) (h : env = [] ∨ growth = []) :
    runDashboard env growth schoolOption = .stopped := by
  rcases h with h | h <;> subst h <;> simp [runDashboard]

theorem empty_dataset_stops_witness :
    (([] : EnvData) = [] ∨ ([("송도고", [])] : GrowthData) = [])
    ∧ runDashboard [] [("송도고", [])] "전체" = .stopped :=
  ⟨Or.inl rfl, empty_dataset_stops [] [("송도고", [])] "전체" (Or.inl rfl)⟩

/-- Claim C6: concatenating the per-source tables yields exactly the sum of
the row counts, preserves every row with its multiplicity (none dropped,
none duplicated), and every output row is literally a row of one input
table, so it still carries the source tag it had there. -/
theorem concat_preserves_rows (g : GrowthData) (env : EnvData) :
    (all_growth g).length = (g.map (fun p => p.2.length)).sum
    ∧ (∀ r : GrowthRow, (all_growth g).count r = (g.map (fun p => p.2.count r)).sum)
    ∧ (∀ r ∈ all_growth g, ∃ p ∈ g, r ∈ p.2)
    ∧ (full_env env).length = (env.map (fun p => p.2.length)).sum
    ∧ (∀ r : EnvRow, (full_env env).count r = (env.map (fun p => p.2.count r)).sum)
    ∧ (∀ r ∈ full_env env, ∃ p ∈ env, r ∈ p.2) := by
  refine ⟨?_, ?_, ?_, ?_, ?_, ?_⟩
  · simp [all_growth, concatTables, List.length_flatten, List.map_map]
    rfl
  · intro r
    simp [all_growth, concatTables, List.count_flatten, List.map_map]
    rfl
  · intro r hr
    rw [all_growth, concatTables, List.mem_flatten] at hr
    obtain ⟨l, hl, hrl⟩ := hr
    obtain ⟨p, hp, rfl⟩ := List.mem_map.mp hl
    exact ⟨p, hp, hrl⟩
  · simp [full_env, concatTables, List.length_flatten, List.map_map]
    rfl
  · intro r
    simp [full_env, concatTables, List.count_flatten, List.map_map]
    rfl
  · intro r hr
    rw [full_env, concatTables, List.mem_flatten] at hr
    obtain ⟨l, hl, hrl⟩ := hr
    obtain ⟨p, hp, rfl⟩ := List.mem_map.mp hl
    exact ⟨p, hp, hrl⟩

/-- Concrete growth rows used by witnesses. -/
def gr1 : GrowthRow := ⟨5, 3, 100, "송도고"⟩

def gr2 : GrowthRow := ⟨6, 4, 110, "하늘고"⟩

def gr3 : GrowthRow := ⟨7, 5, 120, "하늘고"⟩

/-- A concrete environmental row used by witnesses. -/
def envRowW : EnvRow := ⟨"t0", 20, 50, 6, 1, "송도고"⟩

/-- A concrete growth mapping used by witnesses. -/
def gW : GrowthData := [("송도고", [gr1]), ("하늘고", [gr2, gr3])]

theorem concat_preserves_rows_witness :
    (all_growth gW).length = (gW.map (fun p => p.2.length)).sum
    ∧ (gr2 ∈ all_growth gW)
    ∧ (∃ p ∈ gW, gr2 ∈ p.2) :=
  ⟨(concat_preserves_rows gW [("송도고", [envRowW])]).1,
    List.mem_cons_of_mem _ (List.mem_cons_self _ _),
    (concat_preserves_rows gW [("송도고", [envRowW])]).2.2.1 gr2
      (List.mem_cons_of_mem _ (List.mem_cons_self _ _))⟩

/-- Claim C7: the Tab 1 overview builds exactly one row per source identity
of the growth mapping in iteration order, each row holding that identity's
design-table EC lookup, record count and color lookup, and the reported
total equals the sum of the per-row record counts. -/
theorem overview_one_row_per_source (g : GrowthData)
    (h : (g.map Prod.fst).Nodup) :
    (overviewPass g).1.map OverviewRow.school = g.map Prod.fst
    ∧ ((overviewPass g).1.map OverviewRow.school).Nodup
    ∧ (overviewPass g).1.length = g.length
    ∧ (∀ p ∈ g, overviewRowOf p ∈ (overviewPass g).1)
    ∧ (overviewPass g).2 = ((overviewPass g).1.map OverviewRow.count).sum := by
  have he := overviewPass_eq g
  have h1 : (overviewPass g).1.map OverviewRow.school = g.map Prod.fst := by
    rw [he, List.map_map]
    rfl
  refine ⟨h1, ?_, ?_, ?_, ?_⟩
  · rw [h1]; exact h
  · rw [he]; simp
  · intro p hp
    rw [he]
    exact List.mem_map_of_mem _ hp
  · rw [he, List.map_map]
    rfl

theorem overview_one_row_per_source_witness :
    ((gW.map Prod.fst).Nodup)
    ∧ ((overviewPass gW).1.map OverviewRow.school = gW.map Prod.fst
      ∧ ((overviewPass gW).1.map OverviewRow.school).Nodup
      ∧ (overviewPass gW).1.length = gW.length
      ∧ (∀ p ∈ gW, overviewRowOf p ∈ (overviewPass gW).1)
      ∧ (overviewPass gW).2 = ((overviewPass gW).1.map OverviewRow.count).sum) :=
  ⟨by decide, overview_one_row_per_source gW (by decide)⟩

/-- Claim C9: each aggregation, written as a state-passing operation over
the cached raw mappings, returns the state unchanged: the overview,
environment-averages, weight-by-source and the two concatenations only read
`env_data` and `growth_data`, and their outputs are fresh derived values. -/
theorem aggregator_preserves_state (s : St) (sel : List String) :
    (overviewOp s).1 = s
    ∧ (envAveragesOp sel s).1 = s
    ∧ (weightBySourceOp s).1 = s
    ∧ (concatEnvOp s).1 = s
    ∧ (concatGrowthOp s).1 = s :=
  ⟨rfl, rfl, rfl, rfl, rfl⟩

theorem maxByValueAux_spec (l : List (String × ℚ)) :
    ∀ (bk : String) (bv : ℚ),
      ((∀ q ∈ l, q.2 ≤ bv) ∧ maxByValueAux bk bv l = bk)
      ∨ (∃ pre p post, l = pre ++ p :: post
          ∧ bv < p.2
          ∧ (∀ q ∈ pre, q.2 < p.2)
          ∧ (∀ q ∈ l, q.2 ≤ p.2)
          ∧ maxByValueAux bk bv l = p.1) := by
  induction l with
  | nil =>
    intro bk bv
    exact Or.inl ⟨by simp, rfl⟩
  | cons a rest ih =>
    intro bk bv
    obtain ⟨k, v⟩ := a
    by_cases hlt : bv < v
    · rcases ih k v with ⟨hall, heq⟩ | ⟨pre, p, post, hsplit, hbv, hpre, hall, heq⟩
      · refine Or.inr ⟨[], (k, v), rest, rfl, hlt, by simp, ?_, ?_⟩
        · intro q hq
          rcases List.mem_cons.mp hq with rfl | hq
          · exact le_refl _
          · exact hall q hq
        · simp only [maxByValueAux]
          rw [if_pos hlt]
          exact heq
      · refine Or.inr ⟨(k, v) :: pre, p, post, by rw [hsplit, List.cons_append], lt_trans hlt hbv, ?_, ?_, ?_⟩
        · intro q hq
          rcases List.mem_cons.mp hq with rfl | hq
          · exact hbv
          · exact hpre q hq
        · intro q hq
          rcases List.mem_cons.mp hq with rfl | hq
          · exact le_of_lt hbv
          · exact hall q (hsplit ▸ hq)
        · simp only [maxByValueAux]
          rw [if_pos hlt]
          exact heq
    · rcases ih bk bv with ⟨hall, heq⟩ | ⟨pre, p, post, hsplit, hbv, hpre, hall, heq⟩
      · refine Or.inl ⟨?_, ?_⟩
        · intro q hq
          rcases List.mem_cons.mp hq with rfl | hq
          · exact not_lt.mp hlt
          · exact hall q hq
        · simp only [maxByValueAux]
          rw [if_neg hlt]
          exact heq
      · refine Or.inr ⟨(k, v) :: pre, p, post, by rw [hsplit, List.cons_append], hbv, ?_, ?_, ?_⟩
        · intro q hq
          rcases List.mem_cons.mp hq with rfl | hq
          · exact lt_of_le_of_lt (not_lt.mp hlt) hbv
          · exact hpre q hq
        · intro q hq
          rcases List.mem_cons.mp hq with rfl | hq
          · exact le_of_lt (lt_of_le_of_lt (not_lt.mp hlt) hbv)
          · exact hall q (hsplit ▸ hq)
        · simp only [maxByValueAux]
          rw [if_neg hlt]
          exact heq

theorem maxByValue_first_argmax (l : List (String × ℚ)) (h : l ≠ []) :
    ∃ pre p post, l = pre ++ p :: post
      ∧ maxByValue l = some p.1
      ∧ (∀ q ∈ l, q.2 ≤ p.2)
      ∧ (∀ q ∈ pre, q.2 < p.2) := by
  obtain ⟨a, rest, rfl⟩ := List.exists_cons_of_ne_nil h
  obtain ⟨k, v⟩ := a
  rcases maxByValueAux_spec rest k v with ⟨hall, heq⟩ | ⟨pre, p, post, hsplit, hbv, hpre, hall, heq⟩
  · refine ⟨[], (k, v), rest, rfl, ?_, ?_, by simp⟩
    · simp only [maxByValue]
      rw [heq]
    · intro q hq
      rcases List.mem_cons.mp hq with rfl | hq
      · exact le_refl _
      · exact hall q hq
  · refine ⟨(k, v) :: pre, p, post, by rw [hsplit, List.cons_append], ?_, ?_, ?_⟩
    · simp only [maxByValue]
      rw [heq]
    · intro q hq
      rcases List.mem_cons.mp hq with rfl | hq
      · exact le_of_lt hbv
      · exact hall q (hsplit ▸ hq)
    · intro q hq
      rcases List.mem_cons.mp hq with rfl | hq
      · exact hbv
      · exact hpre q hq

/-- Claim C2: over any nonempty growth mapping whose tables each have at
least one row (so every mean is an actual arithmetic mean), `optimal_school`
returns the source whose mean fresh weight is maximal over all loaded
sources, and on ties the first such source in the growth mapping's
iteration order (Python `max` keeps the current best unless a later value
is strictly greater); in particular over mean weights A:5.0, B:9.2, C:3.1,
D:9.2 in that order it returns B. -/
theorem optimal_school_first_max :
    (∀ g : GrowthData, g ≠ [] → (∀ p ∈ g, p.2 ≠ []) →
      ∃ pre p post, weight_means g = pre ++ p :: post
        ∧ optimal_school g = some p.1
        ∧ (∀ q ∈ weight_means g, q.2 ≤ p.2)
        ∧ (∀ q ∈ pre, q.2 < p.2))
    ∧ maxByValue [("A", (5.0 : ℚ)), ("B", (9.2 : ℚ)), ("C", (3.1 : ℚ)), ("D", (9.2 : ℚ))]
        = some "B" := by
  constructor
  · intro g hg _
    have hw : weight_means g ≠ [] := by
      simp [weight_means]
      exact hg
    exact maxByValue_first_argmax (weight_means g) hw
  · norm_num [maxByValue, maxByValueAux]

theorem optimal_school_first_max_witness :
    (gW ≠ [])
    ∧ (∀ p ∈ gW, p.2 ≠ [])
    ∧ (∃ pre p post, weight_means gW = pre ++ p :: post
        ∧ optimal_school gW = some p.1
        ∧ (∀ q ∈ weight_means gW, q.2 ≤ p.2)
        ∧ (∀ q ∈ pre, q.2 < p.2)) :=
  ⟨by simp [gW], by simp [gW, gr1, gr2, gr3],
    optimal_school_first_max.1 gW (by simp [gW]) (by simp [gW, gr1, gr2, gr3])⟩

/-- Claim C4 is violated by the code: with only 송도고 loaded (for example
because the other environmental files were missing, which the loader
tolerates) and 하늘고 selected in the sidebar, the Tab 2 averages loop
executes `env_data["하늘고"]` and raises an uncaught KeyError instead of
skipping or reporting the absent source. -/
theorem avg_rows_keyerror_on_missing_selection :
    avg_rows [("송도고", [envRowW])]
        (selected_schools [("송도고", [envRowW])] "하늘고")
      = .error "하늘고" := rfl

/-- A growth row for a source identity absent from the design tables. -/
def grX : GrowthRow := ⟨7, 3, 100, "X"⟩

/-- Claim C5 counterexample: for the loaded source "X", which has no EC_MAP
entry, the Tab 1 overview row is built with `EC_MAP.get("X")` and therefore
carries the silent default None as its target EC, so the overview table does
contain a defaulted/absent target-EC value for a loaded source. -/
theorem overview_silent_default_counterexample :
    ∃ r ∈ (overviewPass [("X", [grX])]).1, r.school = "X" ∧ r.ec = none :=
  ⟨⟨"X", none, 1, none⟩, by decide⟩

theorem ecFold_error (g : GrowthData) :
    ∀ e, g.foldl ecStep (.error e) = .error e := by
  induction g with
  | nil => intro e; rfl
  | cons p rest ih =>
    intro e
    rw [List.foldl_cons]
    exact ih e

theorem ecFold_crash (g : GrowthData) :
    ∀ rows, (∃ p ∈ g, dictLookup EC_MAP p.1 = none) →
      ∃ e, g.foldl ecStep (.ok rows) = .error e := by
  induction g with
  | nil =>
    intro rows h
    obtain ⟨p, hp, _⟩ := h
    cases hp
  | cons q rest ih =>
    intro rows h
    cases hq : dictLookup EC_MAP q.1 with
    | none =>
      refine ⟨q.1, ?_⟩
      have hstep : ecStep (.ok rows) q = .error q.1 := by
        simp only [ecStep, hq]
      rw [List.foldl_cons, hstep, ecFold_error]
    | some v =>
      obtain ⟨p, hp, hpe⟩ := h
      rcases List.mem_cons.mp hp with rfl | hp
      · rw [hq] at hpe
        cases hpe
      · have hstep : ecStep (.ok rows) q
            = .ok (rows ++ [(q.1, v, listMean (q.2.map GrowthRow.freshWeight))]) := by
          simp only [ecStep, hq]
        rw [List.foldl_cons, hstep]
        exact ih _ ⟨p, hp, hpe⟩

/-- Claim C5 amended: for a loaded source identity with no EC_MAP entry the
weight-by-source lookup `EC_MAP[school]` does raise an explicit KeyError,
but the overview lookup is `EC_MAP.get(school)`, which silently substitutes
None, so the overview table does contain an absent target-EC value for that
source instead of surfacing an error. -/
theorem ec_lookup_loud_except_overview (g : GrowthData) (k : String)
    (t : List GrowthRow) (hmem : (k, t) ∈ g)
    (hmiss : dictLookup EC_MAP k = none) :
    ((⟨k, none, t.length, dictLookup COLOR_MAP k⟩ : OverviewRow)
        ∈ (overviewPass g).1)
    ∧ ∃ e, ec_weight g = .error e := by
  constructor
  · rw [overviewPass_eq g]
    have hrow : overviewRowOf (k, t)
        = ⟨k, none, t.length, dictLookup COLOR_MAP k⟩ := by
      simp [overviewRowOf, hmiss]
    rw [← hrow]
    exact List.mem_map_of_mem _ hmem
  · exact ecFold_crash g [] ⟨(k, t), hmem, hmiss⟩

theorem ec_lookup_loud_except_overview_witness :
    ((("X", [grX]) ∈ ([("X", [grX])] : GrowthData))
      ∧ dictLookup EC_MAP "X" = none)
    ∧ (((⟨"X", none, [grX].length, dictLookup COLOR_MAP "X"⟩ : OverviewRow)
          ∈ (overviewPass [("X", [grX])]).1)
      ∧ ∃ e, ec_weight [("X", [grX])] = .error e) :=
  ⟨⟨List.mem_cons_self _ _, rfl⟩,
    ec_lookup_loud_except_overview [("X", [grX])] "X" [grX]
      (List.mem_cons_self _ _) rfl⟩

theorem find_file_safe_eq_some {nfc : String → String} {dir : List String}
    {t f : String} (h : find_file_safe nfc dir t = some f) :
    f ∈ dir ∧ normalize_name nfc f = normalize_name nfc t := by
  induction dir with
  | nil => cases h
  | cons d rest ih =>
    simp only [find_file_safe] at h
    by_cases hd : normalize_name nfc d = normalize_name nfc t
    · rw [if_pos hd] at h
      cases h
      exact ⟨List.mem_cons_self _ _, hd⟩
    · rw [if_neg hd] at h
      obtain ⟨hm, he⟩ := ih h
      exact ⟨List.mem_cons_of_mem _ hm, he⟩

theorem envStep_resolved (nfc : String → String) (fs : FS) (warns : List String)
    (env : EnvData) (n filePath : String)
    (hfind : find_file_safe nfc fs.entries n = some filePath)
    (hcontent : fs.csvContent filePath ≠ [])
    (hnotin : schoolFromName n ∉ env.map Prod.fst) :
    envStep nfc fs (.ok (warns, env)) n
      = .ok (warns, env ++ [(schoolFromName n,
          tagEnv (schoolFromName n) (fs.csvContent filePath))]) := by
  cases hc : fs.csvContent filePath with
  | nil => exact absurd hc hcontent
  | cons a as =>
    simp only [envStep, hfind, hc, tagEnv, List.map_cons, List.head?_cons]
    rw [dictInsert_of_not_mem _ hnotin]

theorem envFold_error (nfc : String → String) (fs : FS) :
    ∀ (ts : List String) (e : LoadError),
      ts.foldl (envStep nfc fs) (.error e) = .error e := by
  intro ts
  induction ts with
  | nil => intro e; rfl
  | cons n rest ih =>
    intro e
    rw [List.foldl_cons]
    exact ih e

theorem envFold_spec (nfc : String → String) (fs : FS) :
    ∀ (ts : List String) (warns : List String) (env : EnvData),
      (∀ n ∈ ts, ∀ e ∈ fs.entries,
          normalize_name nfc e = normalize_name nfc n → fs.csvContent e ≠ []) →
      ((env.map Prod.fst) ++ ts.map schoolFromName).Nodup →
      ∃ w2 e2,
        ts.foldl (envStep nfc fs) (Except.ok (warns, env))
          = Except.ok (warns ++ w2, env ++ e2)
        ∧ w2.length
            = (ts.filter (fun n => (find_file_safe nfc fs.entries n).isNone)).length
        ∧ e2.map Prod.fst
            = (ts.filter (fun n => (find_file_safe nfc fs.entries n).isSome)).map
                schoolFromName := by
  intro ts
  induction ts with
  | nil =>
    intro warns env hne hnodup
    exact ⟨[], [], by simp, rfl, rfl⟩
  | cons n rest ih =>
    intro warns env hne hnodup
    cases hfind : find_file_safe nfc fs.entries n with
    | none =>
      have hstep : envStep nfc fs (.ok (warns, env)) n
          = .ok (warns ++ [errMsgEnv n], env) := by
        simp only [envStep, hfind]
      have hnodup' : ((env.map Prod.fst) ++ rest.map schoolFromName).Nodup := by
        refine List.Nodup.sublist ?_ hnodup
        exact List.Sublist.append_left (List.sublist_cons_self _ _) _
      obtain ⟨w2, e2, hfold, hw, he⟩ :=
        ih (warns ++ [errMsgEnv n]) env
          (fun m hm => hne m (List.mem_cons_of_mem _ hm)) hnodup'
      refine ⟨errMsgEnv n :: w2, e2, ?_, ?_, ?_⟩
      · rw [List.foldl_cons, hstep, hfold, List.append_assoc]
        rfl
      · simp [List.filter_cons, hfind, hw]
      · simp [List.filter_cons, hfind, he]
    | some filePath =>
      obtain ⟨hpmem, hpeq⟩ := find_file_safe_eq_some hfind
      have hcontent := hne n (List.mem_cons_self _ _) filePath hpmem hpeq
      have hdisj := (List.nodup_append.mp hnodup).2.2
      have hnotin : schoolFromName n ∉ env.map Prod.fst :=
        fun hmem => hdisj hmem (List.mem_cons_self _ _)
      have hstep := envStep_resolved nfc fs warns env n filePath hfind hcontent hnotin
      have hnodup' : (((env ++ [(schoolFromName n,
            tagEnv (schoolFromName n) (fs.csvContent filePath))]).map Prod.fst)
            ++ rest.map schoolFromName).Nodup := by
        simpa [List.map_append, List.append_assoc] using hnodup
      obtain ⟨w2, e2, hfold, hw, he⟩ :=
        ih warns (env ++ [(schoolFromName n,
            tagEnv (schoolFromName n) (fs.csvContent filePath))])
          (fun m hm => hne m (List.mem_cons_of_mem _ hm)) hnodup'
      refine ⟨w2, (schoolFromName n,
          tagEnv (schoolFromName n) (fs.csvContent filePath)) :: e2, ?_, ?_, ?_⟩
      · rw [List.foldl_cons, hstep, hfold, List.append_assoc]
        rfl
      · simp [List.filter_cons, hfind, hw]
      · simp [List.filter_cons, hfind, he]

/-- Claim C8: provided every environmental file the resolver can match
parses to at least one row, `load_environment_data` tolerates missing
files: it returns normally, emits exactly one warning per unmatched target,
omits those sources, and the mapping keys are exactly the school tags of
the targets whose files resolved, in target order. -/
theorem load_env_tolerates_missing_files (nfc : String → String) (fs : FS)
    (hne : ∀ n ∈ csv_targets, ∀ e ∈ fs.entries,
        normalize_name nfc e = normalize_name nfc n → fs.csvContent e ≠ []) :
    ∃ warns env, load_environment_data nfc fs = .ok (warns, env)
      ∧ warns.length
          = (csv_targets.filter
              (fun n => (find_file_safe nfc fs.entries n).isNone)).length
      ∧ env.map Prod.fst
          = (csv_targets.filter
              (fun n => (find_file_safe nfc fs.entries n).isSome)).map
              schoolFromName := by
  obtain ⟨w2, e2, hfold, hw, he⟩ :=
    envFold_spec nfc fs csv_targets [] [] hne (by decide)
  exact ⟨w2, e2, by simpa [load_environment_data] using hfold, hw, he⟩

/-- The data directory with the 하늘고 file removed, as in the C8 scenario. -/
def fsW : FS :=
  ⟨["송도고_환경데이터.csv", "아라고_환경데이터.csv", "동산고_환경데이터.csv"],
    fun _ => [⟨"t0", 20, 50, 6, 1⟩]⟩

theorem load_env_tolerates_missing_files_witness :
    (∀ n ∈ csv_targets, ∀ e ∈ fsW.entries,
        normalize_name id e = normalize_name id n → fsW.csvContent e ≠ [])
    ∧ ∃ warns env, load_environment_data id fsW = .ok (warns, env)
      ∧ warns.length = 1
      ∧ env.map Prod.fst = ["송도고", "아라고", "동산고"] := by
  constructor
  · intro n hn e he hne
    simp [fsW]
  · obtain ⟨warns, env, hok, hw, he⟩ :=
      load_env_tolerates_missing_files id fsW
        (fun n hn e he hne => by simp [fsW])
    refine ⟨warns, env, hok, ?_, ?_⟩
    · rw [hw]
      rfl
    · rw [he]
      rfl

theorem envFold_crash (nfc : String → String) (fs : FS) :
    ∀ (ts : List String) (warns : List String) (env : EnvData),
      (∃ n ∈ ts, ∃ filePath, find_file_safe nfc fs.entries n = some filePath
        ∧ fs.csvContent filePath = []) →
      ∃ err, ts.foldl (envStep nfc fs) (.ok (warns, env)) = .error err := by
  intro ts
  induction ts with
  | nil =>
    intro warns env h
    obtain ⟨n, hn, _⟩ := h
    cases hn
  | cons n rest ih =>
    intro warns env h
    obtain ⟨m, hm, filePath, hfind, hempty⟩ := h
    rcases List.mem_cons.mp hm with rfl | hm
    · refine ⟨.indexError m, ?_⟩
      have hstep : envStep nfc fs (.ok (warns, env)) m
          = .error (.indexError m) := by
        simp only [envStep, hfind, hempty, tagEnv, List.map_nil, List.head?_nil]
      rw [List.foldl_cons, hstep, envFold_error]
    · cases hstep : envStep nfc fs (.ok (warns, env)) n with
      | error e =>
        refine ⟨e, ?_⟩
        rw [List.foldl_cons, hstep, envFold_error]
      | ok pr =>
        obtain ⟨w2, env2⟩ := pr
        rw [List.foldl_cons, hstep]
        exact ih w2 env2 ⟨m, hm, filePath, hfind, hempty⟩

/-- Claim C10: the environmental load is total only when every resolved
file parses to at least one row: if any of the four targets resolves to a
file whose table is empty, `df["school"].iloc[0]` raises, so the whole load
operation raises instead of warning and omitting that source. -/
theorem load_env_raises_on_empty_file (nfc : String → String) (fs : FS)
    (h : ∃ n ∈ csv_targets, ∃ filePath,
        find_file_safe nfc fs.entries n = some filePath
        ∧ fs.csvContent filePath = []) :
    ∃ err, load_environment_data nfc fs = .error err :=
  envFold_crash nfc fs csv_targets [] [] h

/-- The data directory in which the 하늘고 file is present but has no rows. -/
def fsE : FS :=
  ⟨csv_targets,
    fun e => if e = "하늘고_환경데이터.csv" then [] else [⟨"t0", 20, 50, 6, 1⟩]⟩

theorem load_env_raises_on_empty_file_witness :
    (∃ n ∈ csv_targets, ∃ filePath,
        find_file_safe id fsE.entries n = some filePath
        ∧ fsE.csvContent filePath = [])
    ∧ ∃ err, load_environment_data id fsE = .error err :=
  ⟨⟨"하늘고_환경데이터.csv", by decide, "하늘고_환경데이터.csv", rfl, rfl⟩,
    load_env_raises_on_empty_file id fsE
      ⟨"하늘고_환경데이터.csv", by decide, "하늘고_환경데이터.csv", rfl, rfl⟩⟩
